import Mathlib

/-!
Verification of the transcript reconstruction engine and the transcript
rendering component of the conversational-AI demo client.

The engine (spec §3-§8) lives in `lib/message.ts`, which is not among the
available sources; it is modelled here directly from the spec's data model
and algorithm.  The rendering component `components/ConvoTextStream.tsx`
is embedded from its source.
-/

namespace ConvoEngine

/-- Modelled from the spec: lifecycle status of a reconstructed turn
(spec §3, `lib/message.ts` absent): Streaming, Finished or Interrupted. -/
inductive Status where
  | Streaming
  | Finished
  | Interrupted
deriving DecidableEq, Repr

/-- Modelled from the spec: a fragment envelope (spec §3/§6,
`lib/message.ts` absent): speaker, turn, sequence number, text payload,
delta-vs-snapshot tag and final flag. -/
structure Fragment where
  speaker_id : Nat
  turn_id : Nat
  sequence_no : Nat
  text : String
  delta : Bool
  final : Bool
deriving DecidableEq, Repr

/-- Modelled from the spec: a reconstructed turn (spec §3,
`lib/message.ts` absent). -/
structure TranscriptItem where
  speaker_id : Nat
  turn_id : Nat
  text : String
  status : Status
  last_sequence_applied : Nat
deriving DecidableEq, Repr

/-- Modelled from the spec: assembler outcomes (spec §4.2,
`lib/message.ts` absent). -/
inductive AssemblerOutcome where
  | Applied
  | DuplicateIgnored
  | StaleIgnored
  | SupersededPriorTurn
deriving DecidableEq, Repr

/-- Modelled from the spec: the store state, the list of transcript items
in first-fragment receipt order (spec §4.4, `lib/message.ts` absent). -/
structure EngineState where
  items : List TranscriptItem
deriving DecidableEq, Repr

/-- Key test: does an item carry the given `(speaker_id, turn_id)` key? -/
def keyMatches (spk turn : Nat) (it : TranscriptItem) : Bool :=
  it.speaker_id == spk && it.turn_id == turn

/-- Modelled from the spec: look up the unique item addressed by a key
(spec §4.2 step 1). -/
def lookupItem (s : EngineState) (spk turn : Nat) : Option TranscriptItem :=
  s.items.find? (keyMatches spk turn)

/-- Status test used by the assembler: is the item still streaming? -/
def isStreaming (it : TranscriptItem) : Bool :=
  match it.status with
  | Status.Streaming => true
  | _ => false

/-- An item is finalized when it is no longer streaming. -/
def isFinalized (it : TranscriptItem) : Bool :=
  !(isStreaming it)

/-- Modelled from the spec: apply a fragment's payload to an item
(spec §4.2 step 4 and step 6): delta appends, snapshot replaces; a final
fragment finishes the item; `last_sequence_applied` is updated. -/
def applyTo (f : Fragment) (it : TranscriptItem) : TranscriptItem :=
  { it with
      text := if f.delta then it.text ++ f.text else f.text,
      status := if f.final then Status.Finished else it.status,
      last_sequence_applied := f.sequence_no }

/-- Modelled from the spec: the per-item update used when the addressed
item exists and is streaming (spec §4.2 step 4). -/
def updateItem (f : Fragment) (it : TranscriptItem) : TranscriptItem :=
  if keyMatches f.speaker_id f.turn_id it && isStreaming it then applyTo f it else it

/-- Modelled from the spec: implicit closure of an older streaming turn of
the same speaker (spec §4.2 step 5, §8 implicit closure). -/
def supersedeOlder (spk turn : Nat) (it : TranscriptItem) : TranscriptItem :=
  if it.speaker_id == spk && decide (it.turn_id < turn) && isStreaming it then
    { it with status := Status.Finished }
  else it

/-- Modelled from the spec: whether some still-streaming item of the same
speaker under an older turn exists (spec §4.2 step 5). -/
def anySuperseded (spk turn : Nat) (items : List TranscriptItem) : Bool :=
  items.any (fun it => it.speaker_id == spk && decide (it.turn_id < turn) && isStreaming it)

/-- Modelled from the spec: `apply(fragment)` (spec §4.2).  Terminal items
ignore fragments (`StaleIgnored`); a sequence number not above
`last_sequence_applied` is a duplicate (`DuplicateIgnored`); otherwise the
fragment is applied (append/replace per the delta tag, finish on `final`),
any older streaming turn of the same speaker is finished and
`SupersededPriorTurn` is reported alongside `Applied`.  A new item starts
with `last_sequence_applied = 0`, so a fragment numbered `0` is a
duplicate and does not create an item (spec §4.2 step 1). -/
def applyFragment (s : EngineState) (f : Fragment) : EngineState × List AssemblerOutcome :=
  match lookupItem s f.speaker_id f.turn_id with
  | some it =>
    if isStreaming it then
      if f.sequence_no ≤ it.last_sequence_applied then
        (s, [AssemblerOutcome.DuplicateIgnored])
      else
        let sup := anySuperseded f.speaker_id f.turn_id s.items
        let items1 := (s.items.map (updateItem f)).map (supersedeOlder f.speaker_id f.turn_id)
        (⟨items1⟩,
          if sup then [AssemblerOutcome.Applied, AssemblerOutcome.SupersededPriorTurn]
          else [AssemblerOutcome.Applied])
    else (s, [AssemblerOutcome.StaleIgnored])
  | none =>
    if f.sequence_no = 0 then (s, [AssemblerOutcome.DuplicateIgnored])
    else
      let sup := anySuperseded f.speaker_id f.turn_id s.items
      let items1 := s.items.map (supersedeOlder f.speaker_id f.turn_id)
      let newItem : TranscriptItem :=
        { speaker_id := f.speaker_id, turn_id := f.turn_id, text := f.text,
          status := if f.final then Status.Finished else Status.Streaming,
          last_sequence_applied := f.sequence_no }
      (⟨items1 ++ [newItem]⟩,
        if sup then [AssemblerOutcome.Applied, AssemblerOutcome.SupersededPriorTurn]
        else [AssemblerOutcome.Applied])

/-- Modelled from the spec: per-item effect of an interruption control
fragment (spec §4.3, §6): a streaming item with the key becomes
Interrupted; terminal items are untouched. -/
def interruptItem (spk turn : Nat) (it : TranscriptItem) : TranscriptItem :=
  if keyMatches spk turn it && isStreaming it then
    { it with status := Status.Interrupted }
  else it

/-- Modelled from the spec: apply an interruption control fragment
(spec §4.3, §6). -/
def applyInterrupt (s : EngineState) (spk turn : Nat) : EngineState :=
  ⟨s.items.map (interruptItem spk turn)⟩

/-- Modelled from the spec: an inbound event is either a text fragment or
an interruption control fragment (spec §6). -/
inductive EngineEvent where
  | frag (f : Fragment)
  | interrupt (spk turn : Nat)
deriving DecidableEq, Repr

/-- Modelled from the spec: process one inbound event (spec §5, single
writer, one event at a time). -/
def applyEvent (s : EngineState) (e : EngineEvent) : EngineState :=
  match e with
  | EngineEvent.frag f => (applyFragment s f).1
  | EngineEvent.interrupt spk turn => applyInterrupt s spk turn

/-- Modelled from the spec: process a sequence of inbound events in
receipt order (spec §5). -/
def run (s : EngineState) (evs : List EngineEvent) : EngineState :=
  evs.foldl applyEvent s

/-- Modelled from the spec: the finalized part of `snapshot()` — all
non-streaming items in store order (spec §4.4). -/
def snapshotFinalized (s : EngineState) : List TranscriptItem :=
  s.items.filter isFinalized

/-- Modelled from the spec: the streaming reference of `snapshot()` — the
current streaming item, if any (spec §4.4). -/
def snapshotStreaming (s : EngineState) : Option TranscriptItem :=
  s.items.find? isStreaming

end ConvoEngine

namespace ConvoUI

/-- Modelled from the spec: the message status enum of the absent
`lib/message.ts` (the UI source only references `IN_PROGRESS`); a TS
numeric enum, statuses in-progress / end / interrupted with the usual
codes 0, 1, 2. -/
inductive EMessageStatus where
  | IN_PROGRESS
  | END
  | INTERRUPTED
deriving DecidableEq, Repr

/-- Modelled from the spec: a rendered message item of the absent
`lib/message.ts`, with the fields `ConvoTextStream.tsx` reads:
`uid`, `turn_id`, `text`, `status`. -/
structure IMessageListItem where
  uid : Nat
  turn_id : Nat
  text : String
  status : EMessageStatus
deriving DecidableEq, Repr

/-- The numeric value of a TS `EMessageStatus` enum member, as rendered by
a template literal. -/
def statusCode : EMessageStatus → Nat
  | EMessageStatus.IN_PROGRESS => 0
  | EMessageStatus.END => 1
  | EMessageStatus.INTERRUPTED => 2

/-- Decimal digits of a natural number, most significant first (the digit
sequence produced by JS number-to-string conversion for a non-negative
integer). -/
def toDecDigits (n : Nat) : List Nat :=
  if n < 10 then [n] else toDecDigits (n / 10) ++ [n % 10]
termination_by n
decreasing_by exact Nat.div_lt_self (by omega) (by omega)

/-- Value of a digit list read back as a decimal numeral. -/
def fromDecDigits (l : List Nat) : Nat :=
  l.foldl (fun a d => 10 * a + d) 0

/-- Characters of the decimal rendering of a natural number. -/
def natDecChars (n : Nat) : List Char :=
  (toDecDigits n).map Nat.digitChar

/-- Decimal rendering of a natural number, the result of JS
`n.toString()` / a `${n}` template literal for a non-negative integer. -/
def natDecStr (n : Nat) : String :=
  String.mk (natDecChars n)

/-- `ConvoTextStream.tsx` line 196: the React list key
`${message.turn_id}-${message.uid}-${message.status}`. -/
def renderKey (m : IMessageListItem) : String :=
  natDecStr m.turn_id ++ "-" ++ natDecStr m.uid ++ "-" ++ natDecStr (statusCode m.status)

/-- `ConvoTextStream.tsx` lines 137-143: show the streaming message only
when it is present, in progress, and non-blank after trimming. -/
def shouldShowStreamingMessage (cur : Option IMessageListItem) : Bool :=
  match cur with
  | none => false
  | some m =>
    decide (m.status = EMessageStatus.IN_PROGRESS) && decide (0 < m.text.trim.length)

/-- `ConvoTextStream.tsx` lines 163-167: the rendered sequence — the
complete messages, with the in-progress message pushed at the end when it
should be shown. -/
def allMessages (messageList : List IMessageListItem) (cur : Option IMessageListItem) :
    List IMessageListItem :=
  match cur with
  | some m =>
    if shouldShowStreamingMessage (some m) then messageList ++ [m] else messageList
  | none => messageList

/-- `ConvoTextStream.tsx` lines 156-161: a message is from the AI when its
uid is 0, or when `agentUID` is truthy (defined and non-empty) and the
decimal string of the uid equals it. -/
def isAIMessage (agentUID : Option String) (m : IMessageListItem) : Bool :=
  decide (m.uid = 0) ||
    (match agentUID with
     | some s => !(s == "") && (natDecStr m.uid == s)
     | none => false)

end ConvoUI

namespace ConvoEngine

theorem find?_map_of_pred (p : TranscriptItem → Bool) (g : TranscriptItem → TranscriptItem)
    (h : ∀ x, p (g x) = p x) (l : List TranscriptItem) :
    List.find? p (l.map g) = (List.find? p l).map g := by
  rw [List.find?_map]
  have hp : p ∘ g = p := funext h
  rw [hp]

theorem keyMatches_updateItem (spk turn : Nat) (f : Fragment) (it : TranscriptItem) :
    keyMatches spk turn (updateItem f it) = keyMatches spk turn it := by
  unfold updateItem
  split <;> rfl

theorem keyMatches_supersedeOlder (spk turn spk2 turn2 : Nat) (it : TranscriptItem) :
    keyMatches spk turn (supersedeOlder spk2 turn2 it) = keyMatches spk turn it := by
  unfold supersedeOlder
  split <;> rfl

theorem keyMatches_interruptItem (spk turn spk2 turn2 : Nat) (it : TranscriptItem) :
    keyMatches spk turn (interruptItem spk2 turn2 it) = keyMatches spk turn it := by
  unfold interruptItem
  split <;> rfl

theorem isStreaming_false_of_finalized (it : TranscriptItem) (h : isFinalized it = true) :
    isStreaming it = false := by
  unfold isFinalized at h
  cases hs : isStreaming it
  · rfl
  · rw [hs] at h
    simp at h

theorem updateItem_of_finalized (f : Fragment) (it : TranscriptItem)
    (h : isFinalized it = true) : updateItem f it = it := by
  unfold updateItem
  rw [isStreaming_false_of_finalized it h]
  simp

theorem supersedeOlder_of_finalized (spk turn : Nat) (it : TranscriptItem)
    (h : isFinalized it = true) : supersedeOlder spk turn it = it := by
  unfold supersedeOlder
  rw [isStreaming_false_of_finalized it h]
  simp

theorem interruptItem_of_finalized (spk turn : Nat) (it : TranscriptItem)
    (h : isFinalized it = true) : interruptItem spk turn it = it := by
  unfold interruptItem
  rw [isStreaming_false_of_finalized it h]
  simp

theorem supersedeOlder_self_turn (spk turn : Nat) (it : TranscriptItem)
    (h : it.turn_id = turn) : supersedeOlder spk turn it = it := by
  unfold supersedeOlder
  rw [h]
  simp

theorem filter_finalized_sublist_map (g : TranscriptItem → TranscriptItem)
    (h : ∀ x, isFinalized x = true → g x = x) (l : List TranscriptItem) :
    List.Sublist (l.filter isFinalized) ((l.map g).filter isFinalized) := by
  induction l with
  | nil => simp
  | cons x l ih =>
    rw [List.map_cons, List.filter_cons, List.filter_cons]
    cases hx : isFinalized x
    · simp only [Bool.false_eq_true, if_false]
      cases hgx : isFinalized (g x)
      · simp only [Bool.false_eq_true, if_false]
        exact ih
      · simp only [if_true]
        exact List.Sublist.cons (g x) ih
    · rw [h x hx]
      rw [hx]
      simp only [if_true]
      exact List.Sublist.cons₂ x ih

theorem snapshotFinalized_sublist_frag (s : EngineState) (f : Fragment) :
    List.Sublist (snapshotFinalized s) (snapshotFinalized (applyFragment s f).1) := by
  unfold applyFragment
  cases hl : lookupItem s f.speaker_id f.turn_id with
  | some it =>
    by_cases hs : isStreaming it = true
    · by_cases hd : f.sequence_no ≤ it.last_sequence_applied
      · simp only [hs, if_true, hd]
        exact List.Sublist.refl _
      · simp only [hs, if_true, if_neg hd]
        unfold snapshotFinalized
        refine List.Sublist.trans
          (filter_finalized_sublist_map (updateItem f) (updateItem_of_finalized f) s.items) ?_
        exact filter_finalized_sublist_map (supersedeOlder f.speaker_id f.turn_id)
          (supersedeOlder_of_finalized f.speaker_id f.turn_id) (s.items.map (updateItem f))
    · simp only [Bool.not_eq_true] at hs
      simp only [hs, Bool.false_eq_true, if_false]
      exact List.Sublist.refl _
  | none =>
    by_cases h0 : f.sequence_no = 0
    · simp only [if_pos h0]
      exact List.Sublist.refl _
    · simp only [if_neg h0]
      unfold snapshotFinalized
      rw [List.filter_append]
      refine List.Sublist.trans
        (filter_finalized_sublist_map (supersedeOlder f.speaker_id f.turn_id)
          (supersedeOlder_of_finalized f.speaker_id f.turn_id) s.items) ?_
      exact List.sublist_append_left _ _

theorem snapshotFinalized_sublist_interrupt (s : EngineState) (spk turn : Nat) :
    List.Sublist (snapshotFinalized s) (snapshotFinalized (applyInterrupt s spk turn)) := by
  unfold applyInterrupt snapshotFinalized
  exact filter_finalized_sublist_map (interruptItem spk turn)
    (interruptItem_of_finalized spk turn) s.items

theorem snapshotFinalized_sublist_event (s : EngineState) (e : EngineEvent) :
    List.Sublist (snapshotFinalized s) (snapshotFinalized (applyEvent s e)) := by
  cases e with
  | frag f => exact snapshotFinalized_sublist_frag s f
  | interrupt spk turn => exact snapshotFinalized_sublist_interrupt s spk turn

theorem lookupItem_key (s : EngineState) (spk turn : Nat) (it : TranscriptItem)
    (h : lookupItem s spk turn = some it) : it.speaker_id = spk ∧ it.turn_id = turn := by
  unfold lookupItem at h
  have hp := List.find?_some h
  unfold keyMatches at hp
  simp only [Bool.and_eq_true, beq_iff_eq] at hp
  exact hp

theorem updateItem_turn_id (f : Fragment) (it : TranscriptItem) :
    (updateItem f it).turn_id = it.turn_id := by
  unfold updateItem
  split <;> rfl

theorem updateItem_of_match (f : Fragment) (it : TranscriptItem)
    (hkey : keyMatches f.speaker_id f.turn_id it = true) (hs : isStreaming it = true) :
    updateItem f it = applyTo f it := by
  unfold updateItem
  rw [hkey, hs]
  simp

theorem applyFragment_stale (s : EngineState) (f : Fragment) (it : TranscriptItem)
    (hfind : lookupItem s f.speaker_id f.turn_id = some it)
    (hterm : isStreaming it = false) :
    applyFragment s f = (s, [AssemblerOutcome.StaleIgnored]) := by
  unfold applyFragment
  rw [hfind]
  simp [hterm]

theorem applyFragment_dup (s : EngineState) (f : Fragment) (it : TranscriptItem)
    (hfind : lookupItem s f.speaker_id f.turn_id = some it)
    (hs : isStreaming it = true)
    (hle : f.sequence_no ≤ it.last_sequence_applied) :
    applyFragment s f = (s, [AssemblerOutcome.DuplicateIgnored]) := by
  unfold applyFragment
  rw [hfind]
  simp [hs, hle]

theorem lookupItem_after_applied (s : EngineState) (f : Fragment) (it : TranscriptItem)
    (hfind : lookupItem s f.speaker_id f.turn_id = some it) :
    lookupItem ⟨(s.items.map (updateItem f)).map (supersedeOlder f.speaker_id f.turn_id)⟩
        f.speaker_id f.turn_id = some (updateItem f it) := by
  unfold lookupItem
  rw [find?_map_of_pred _ _ (fun x => keyMatches_supersedeOlder _ _ _ _ x)]
  rw [find?_map_of_pred _ _ (fun x => keyMatches_updateItem _ _ f x)]
  unfold lookupItem at hfind
  rw [hfind]
  simp only [Option.map_some, Option.map]
  congr 1
  apply supersedeOlder_self_turn
  rw [updateItem_turn_id]
  exact (lookupItem_key s f.speaker_id f.turn_id it (by unfold lookupItem; exact hfind)).2

theorem lookupItem_after_created (s : EngineState) (f : Fragment) (nw : TranscriptItem)
    (hnone : lookupItem s f.speaker_id f.turn_id = none)
    (hkey : keyMatches f.speaker_id f.turn_id nw = true) :
    lookupItem ⟨s.items.map (supersedeOlder f.speaker_id f.turn_id) ++ [nw]⟩
        f.speaker_id f.turn_id = some nw := by
  unfold lookupItem
  rw [List.find?_append]
  rw [find?_map_of_pred _ _ (fun x => keyMatches_supersedeOlder _ _ _ _ x)]
  unfold lookupItem at hnone
  rw [hnone]
  simp [List.find?, hkey]

/-- C1 counterexample: applying the final fragment of a turn twice leaves
the state unchanged, but the second application is rejected as
`StaleIgnored` — the first application finalized the item, and the
terminal check of §4.2 step 2 fires before the sequence-number check of
step 3 — not as `DuplicateIgnored` as the claim states. -/
theorem apply_twice_final_staleIgnored :
    (applyFragment (applyFragment ⟨[]⟩ ⟨1, 1, 1, "Hello", true, true⟩).1
        ⟨1, 1, 1, "Hello", true, true⟩).2 = [AssemblerOutcome.StaleIgnored] ∧
    [AssemblerOutcome.StaleIgnored] ≠ [AssemblerOutcome.DuplicateIgnored] := by
  constructor
  · rfl
  · decide

/-- C1 (amended): applying the same fragment twice in succession leaves
the engine state — hence the addressed item's text and status — exactly as
after the first application; the second application is rejected, as
`DuplicateIgnored` (its sequence number is not above
`last_sequence_applied`) when the item is still streaming, or as
`StaleIgnored` when the first application made it terminal. -/
theorem apply_twice_idempotent (s : EngineState) (f : Fragment) :
    (applyFragment (applyFragment s f).1 f).1 = (applyFragment s f).1 ∧
    ((applyFragment (applyFragment s f).1 f).2 = [AssemblerOutcome.DuplicateIgnored] ∨
      (applyFragment (applyFragment s f).1 f).2 = [AssemblerOutcome.StaleIgnored]) := by
  cases hl : lookupItem s f.speaker_id f.turn_id with
  | some it =>
    have hkey : keyMatches f.speaker_id f.turn_id it = true := by
      unfold lookupItem at hl
      exact List.find?_some hl
    cases hs : isStreaming it with
    | false =>
      have h1 := applyFragment_stale s f it hl hs
      have h2 : applyFragment (applyFragment s f).1 f = (s, [AssemblerOutcome.StaleIgnored]) := by
        rw [h1]
        exact h1
      exact ⟨by rw [h2, h1], Or.inr (by rw [h2])⟩
    | true =>
      by_cases hd : f.sequence_no ≤ it.last_sequence_applied
      · have h1 := applyFragment_dup s f it hl hs hd
        have h2 : applyFragment (applyFragment s f).1 f =
            (s, [AssemblerOutcome.DuplicateIgnored]) := by
          rw [h1]
          exact h1
        exact ⟨by rw [h2, h1], Or.inl (by rw [h2])⟩
      · have hstate : (applyFragment s f).1 =
            ⟨(s.items.map (updateItem f)).map (supersedeOlder f.speaker_id f.turn_id)⟩ := by
          unfold applyFragment
          rw [hl]
          simp [hs, hd]
        have hfind2 := lookupItem_after_applied s f it hl
        rw [← hstate] at hfind2
        rw [updateItem_of_match f it hkey hs] at hfind2
        cases hf : f.final with
        | true =>
          have hstat : (applyTo f it).status = Status.Finished := by
            simp [applyTo, hf]
          have hterm : isStreaming (applyTo f it) = false := by
            unfold isStreaming
            rw [hstat]
          have h2 := applyFragment_stale _ f _ hfind2 hterm
          exact ⟨by rw [h2], Or.inr (by rw [h2])⟩
        | false =>
          have hstat : (applyTo f it).status = it.status := by
            simp [applyTo, hf]
          have hstr2 : isStreaming (applyTo f it) = true := by
            unfold isStreaming
            rw [hstat]
            exact hs
          have hle2 : f.sequence_no ≤ (applyTo f it).last_sequence_applied := le_refl _
          have h2 := applyFragment_dup _ f _ hfind2 hstr2 hle2
          exact ⟨by rw [h2], Or.inl (by rw [h2])⟩
  | none =>
    by_cases h0 : f.sequence_no = 0
    · have h1 : applyFragment s f = (s, [AssemblerOutcome.DuplicateIgnored]) := by
        unfold applyFragment
        rw [hl]
        simp [h0]
      have h2 : applyFragment (applyFragment s f).1 f =
          (s, [AssemblerOutcome.DuplicateIgnored]) := by
        rw [h1]
        exact h1
      exact ⟨by rw [h2, h1], Or.inl (by rw [h2])⟩
    · have hstate : (applyFragment s f).1 =
          ⟨s.items.map (supersedeOlder f.speaker_id f.turn_id) ++
            [⟨f.speaker_id, f.turn_id, f.text,
              if f.final then Status.Finished else Status.Streaming, f.sequence_no⟩]⟩ := by
        unfold applyFragment
        rw [hl]
        simp [h0]
      have hfind2 := lookupItem_after_created s f
        ⟨f.speaker_id, f.turn_id, f.text,
          if f.final then Status.Finished else Status.Streaming, f.sequence_no⟩
        hl (by simp [keyMatches])
      rw [← hstate] at hfind2
      cases hf : f.final with
      | true =>
        have hterm : isStreaming
            (⟨f.speaker_id, f.turn_id, f.text,
              if f.final then Status.Finished else Status.Streaming, f.sequence_no⟩ :
              TranscriptItem) = false := by
          unfold isStreaming
          simp [hf]
        have h2 := applyFragment_stale _ f _ hfind2 hterm
        exact ⟨by rw [h2], Or.inr (by rw [h2])⟩
      | false =>
        have hstr2 : isStreaming
            (⟨f.speaker_id, f.turn_id, f.text,
              if f.final then Status.Finished else Status.Streaming, f.sequence_no⟩ :
              TranscriptItem) = true := by
          unfold isStreaming
          simp [hf]
        have h2 := applyFragment_dup _ f _ hfind2 hstr2 (le_refl _)
        exact ⟨by rw [h2], Or.inl (by rw [h2])⟩

/-- C2: once an item is Finished or Interrupted, a fragment addressed to
its `(speaker_id, turn_id)` changes neither the item nor any other part of
the state, and is ignored with outcome `StaleIgnored`. -/
theorem terminal_items_immutable (s : EngineState) (f : Fragment) (it : TranscriptItem)
    (hfind : lookupItem s f.speaker_id f.turn_id = some it)
    (hterm : isFinalized it = true) :
    (applyFragment s f).1 = s ∧ (applyFragment s f).2 = [AssemblerOutcome.StaleIgnored] := by
  have h := applyFragment_stale s f it hfind (isStreaming_false_of_finalized it hterm)
  exact ⟨by rw [h], by rw [h]⟩

/-- C2 witness: a Finished item ignores a later fragment for its key. -/
theorem terminal_items_immutable_witness :
    lookupItem ⟨[⟨1, 1, "Hi", Status.Finished, 1⟩]⟩ 1 1 =
      some ⟨1, 1, "Hi", Status.Finished, 1⟩ ∧
    isFinalized ⟨1, 1, "Hi", Status.Finished, 1⟩ = true ∧
    (applyFragment ⟨[⟨1, 1, "Hi", Status.Finished, 1⟩]⟩ ⟨1, 1, 2, "more", true, false⟩).1 =
      ⟨[⟨1, 1, "Hi", Status.Finished, 1⟩]⟩ ∧
    (applyFragment ⟨[⟨1, 1, "Hi", Status.Finished, 1⟩]⟩ ⟨1, 1, 2, "more", true, false⟩).2 =
      [AssemblerOutcome.StaleIgnored] := by
  refine ⟨by decide, by decide, ?_⟩
  have h := terminal_items_immutable ⟨[⟨1, 1, "Hi", Status.Finished, 1⟩]⟩
    ⟨1, 1, 2, "more", true, false⟩ ⟨1, 1, "Hi", Status.Finished, 1⟩ (by decide) (by decide)
  exact h

/-- C3 counterexample: a full-snapshot fragment replaces the text
wholesale (§4.2 step 4), so the text of a Streaming item can get shorter:
after `(spk 1, turn 1, seq 1, "Hello", delta)` the streaming text has
length 5, and the next fragment `(spk 1, turn 1, seq 2, "Hi", snapshot)`
leaves it with length 2. -/
theorem snapshot_fragment_shrinks_text :
    lookupItem (applyFragment ⟨[]⟩ ⟨1, 1, 1, "Hello", true, false⟩).1 1 1 =
      some ⟨1, 1, "Hello", Status.Streaming, 1⟩ ∧
    lookupItem (applyFragment (applyFragment ⟨[]⟩ ⟨1, 1, 1, "Hello", true, false⟩).1
        ⟨1, 1, 2, "Hi", false, false⟩).1 1 1 =
      some ⟨1, 1, "Hi", Status.Streaming, 2⟩ ∧
    ¬ ("Hello".length ≤ "Hi".length) := by
  exact ⟨rfl, rfl, by decide⟩

/-- C3 (amended): while an item is Streaming, its text length is
monotonically non-decreasing across applied fragments carrying deltas
(a delta appends); a full-snapshot fragment replaces the text wholesale
and may shorten it. -/
theorem delta_text_length_monotone (s : EngineState) (f : Fragment) (it it' : TranscriptItem)
    (hdelta : f.delta = true)
    (hfind : lookupItem s f.speaker_id f.turn_id = some it)
    (hs : isStreaming it = true)
    (hfind' : lookupItem (applyFragment s f).1 f.speaker_id f.turn_id = some it') :
    it.text.length ≤ it'.text.length := by
  have hkey : keyMatches f.speaker_id f.turn_id it = true := by
    unfold lookupItem at hfind
    exact List.find?_some hfind
  by_cases hd : f.sequence_no ≤ it.last_sequence_applied
  · have h1 := applyFragment_dup s f it hfind hs hd
    rw [h1] at hfind'
    have h2 : lookupItem s f.speaker_id f.turn_id = some it' := hfind'
    rw [hfind] at h2
    rw [← Option.some.inj h2]
  · have hstate : (applyFragment s f).1 =
        ⟨(s.items.map (updateItem f)).map (supersedeOlder f.speaker_id f.turn_id)⟩ := by
      unfold applyFragment
      rw [hfind]
      simp [hs, hd]
    rw [hstate] at hfind'
    rw [lookupItem_after_applied s f it hfind] at hfind'
    have h2 := Option.some.inj hfind'
    rw [updateItem_of_match f it hkey hs] at h2
    rw [← h2]
    unfold applyTo
    simp only [hdelta, if_true]
    rw [String.length_append]
    exact Nat.le_add_right _ _

/-- C3 witness: a delta fragment appended to a streaming item does not
shorten the text. -/
theorem delta_text_length_monotone_witness :
    (⟨1, 1, 2, "llo", true, false⟩ : Fragment).delta = true ∧
    lookupItem ⟨[⟨1, 1, "He", Status.Streaming, 1⟩]⟩ 1 1 =
      some ⟨1, 1, "He", Status.Streaming, 1⟩ ∧
    isStreaming ⟨1, 1, "He", Status.Streaming, 1⟩ = true ∧
    lookupItem (applyFragment ⟨[⟨1, 1, "He", Status.Streaming, 1⟩]⟩
        ⟨1, 1, 2, "llo", true, false⟩).1 1 1 =
      some ⟨1, 1, "Hello", Status.Streaming, 2⟩ ∧
    "He".length ≤ "Hello".length :=
  ⟨by decide, by decide, by decide, by decide,
    delta_text_length_monotone ⟨[⟨1, 1, "He", Status.Streaming, 1⟩]⟩
      ⟨1, 1, 2, "llo", true, false⟩ ⟨1, 1, "He", Status.Streaming, 1⟩
      ⟨1, 1, "Hello", Status.Streaming, 2⟩ (by decide) (by decide) (by decide) (by decide)⟩

/-- C4: a fragment for `(speaker, turn2)` arriving while `(speaker,
turn1)`, `turn1 < turn2`, is still Streaming finishes the older item,
creates the new one with the fragment applied, and reports
`SupersededPriorTurn` alongside `Applied`. -/
theorem newer_turn_supersedes_streaming (s : EngineState) (f : Fragment) (t1 : Nat)
    (old : TranscriptItem)
    (h1 : lookupItem s f.speaker_id t1 = some old)
    (h2 : isStreaming old = true)
    (h3 : t1 < f.turn_id)
    (h4 : lookupItem s f.speaker_id f.turn_id = none)
    (h5 : f.sequence_no ≠ 0) :
    lookupItem (applyFragment s f).1 f.speaker_id t1 =
      some { old with status := Status.Finished } ∧
    lookupItem (applyFragment s f).1 f.speaker_id f.turn_id =
      some ⟨f.speaker_id, f.turn_id, f.text,
        if f.final then Status.Finished else Status.Streaming, f.sequence_no⟩ ∧
    (applyFragment s f).2 = [AssemblerOutcome.Applied, AssemblerOutcome.SupersededPriorTurn] := by
  have hkold := lookupItem_key s f.speaker_id t1 old h1
  have hsup : anySuperseded f.speaker_id f.turn_id s.items = true := by
    unfold anySuperseded
    rw [List.any_eq_true]
    refine ⟨old, ?_, ?_⟩
    · unfold lookupItem at h1
      exact List.mem_of_find?_eq_some h1
    · rw [hkold.1, hkold.2]
      simp [h2, h3]
  have hstate : (applyFragment s f).1 =
      ⟨s.items.map (supersedeOlder f.speaker_id f.turn_id) ++
        [⟨f.speaker_id, f.turn_id, f.text,
          if f.final then Status.Finished else Status.Streaming, f.sequence_no⟩]⟩ := by
    unfold applyFragment
    rw [h4]
    simp [h5]
  have hout : (applyFragment s f).2 =
      [AssemblerOutcome.Applied, AssemblerOutcome.SupersededPriorTurn] := by
    unfold applyFragment
    rw [h4]
    simp [h5, hsup]
  refine ⟨?_, ?_, hout⟩
  · rw [hstate]
    unfold lookupItem
    rw [List.find?_append]
    rw [find?_map_of_pred _ _ (fun x => keyMatches_supersedeOlder _ _ _ _ x)]
    unfold lookupItem at h1
    rw [h1]
    have hso : supersedeOlder f.speaker_id f.turn_id old =
        { old with status := Status.Finished } := by
      unfold supersedeOlder
      rw [hkold.1, hkold.2]
      simp [h2, h3]
    simp [hso]
  · rw [hstate]
    exact lookupItem_after_created s f _ h4 (by simp [keyMatches])

/-- C4 witness: a fragment for turn 2 while turn 1 of the same speaker is
streaming finishes turn 1, creates turn 2, and reports both outcomes. -/
theorem newer_turn_supersedes_streaming_witness :
    lookupItem ⟨[⟨1, 1, "Hi", Status.Streaming, 1⟩]⟩ 1 1 =
      some ⟨1, 1, "Hi", Status.Streaming, 1⟩ ∧
    (1 : Nat) < 2 ∧
    lookupItem ⟨[⟨1, 1, "Hi", Status.Streaming, 1⟩]⟩ 1 2 = none ∧
    (lookupItem (applyFragment ⟨[⟨1, 1, "Hi", Status.Streaming, 1⟩]⟩
          ⟨1, 2, 1, "Yo", true, false⟩).1 1 1 =
        some ⟨1, 1, "Hi", Status.Finished, 1⟩ ∧
      lookupItem (applyFragment ⟨[⟨1, 1, "Hi", Status.Streaming, 1⟩]⟩
          ⟨1, 2, 1, "Yo", true, false⟩).1 1 2 =
        some ⟨1, 2, "Yo", Status.Streaming, 1⟩ ∧
      (applyFragment ⟨[⟨1, 1, "Hi", Status.Streaming, 1⟩]⟩
          ⟨1, 2, 1, "Yo", true, false⟩).2 =
        [AssemblerOutcome.Applied, AssemblerOutcome.SupersededPriorTurn]) :=
  ⟨by decide, by decide, by decide,
    newer_turn_supersedes_streaming ⟨[⟨1, 1, "Hi", Status.Streaming, 1⟩]⟩
      ⟨1, 2, 1, "Yo", true, false⟩ 1 ⟨1, 1, "Hi", Status.Streaming, 1⟩
      (by decide) (by decide) (by decide) (by decide) (by decide)⟩

/-- C5: finalized items returned by a snapshot appear, unchanged and in
the same relative order, in the snapshot taken after any further sequence
of events (append-only, never reordered finalized history). -/
theorem snapshot_finalized_stable (s : EngineState) (evs : List EngineEvent) :
    List.Sublist (snapshotFinalized s) (snapshotFinalized (run s evs)) := by
  induction evs generalizing s with
  | nil => exact List.Sublist.refl _
  | cons e evs ih =>
    unfold run
    rw [List.foldl_cons]
    exact List.Sublist.trans (snapshotFinalized_sublist_event s e) (ih (applyEvent s e))

/-- C6: Scenario A — fragment (spk 1, turn 1, seq 1, "Hel", delta, not
final) then (spk 1, turn 1, seq 2, "lo", delta, final) produce a snapshot
with exactly one Finished item of text "Hello" and no streaming item. -/
theorem scenarioA_finished_hello :
    snapshotFinalized (applyFragment (applyFragment ⟨[]⟩ ⟨1, 1, 1, "Hel", true, false⟩).1
        ⟨1, 1, 2, "lo", true, true⟩).1 =
      [⟨1, 1, "Hello", Status.Finished, 2⟩] ∧
    snapshotStreaming (applyFragment (applyFragment ⟨[]⟩ ⟨1, 1, 1, "Hel", true, false⟩).1
        ⟨1, 1, 2, "lo", true, true⟩).1 = none := by
  exact ⟨rfl, rfl⟩
end ConvoEngine

namespace ConvoUI

theorem toDecDigits_lt (n : Nat) : ∀ d ∈ toDecDigits n, d < 10 := by
  induction n using Nat.strong_induction_on with
  | _ n ih =>
    rw [toDecDigits]
    by_cases h : n < 10
    · simp [h]
    · simp only [h, if_false]
      intro d hd
      rw [List.mem_append] at hd
      cases hd with
      | inl hd => exact ih (n / 10) (Nat.div_lt_self (by omega) (by omega)) d hd
      | inr hd =>
        simp only [List.mem_singleton] at hd
        subst hd
        exact Nat.mod_lt _ (by omega)

theorem toDecDigits_ne_nil (n : Nat) : toDecDigits n ≠ [] := by
  rw [toDecDigits]
  split
  · simp
  · simp

theorem fromDec_toDec (n : Nat) : fromDecDigits (toDecDigits n) = n := by
  induction n using Nat.strong_induction_on with
  | _ n ih =>
    rw [toDecDigits]
    by_cases h : n < 10
    · simp only [h, if_true]
      unfold fromDecDigits
      simp [List.foldl]
    · simp only [h, if_false]
      unfold fromDecDigits
      rw [List.foldl_append]
      have hrec := ih (n / 10) (Nat.div_lt_self (by omega) (by omega))
      unfold fromDecDigits at hrec
      rw [hrec]
      simp only [List.foldl]
      omega

theorem toDecDigits_inj (a b : Nat) (h : toDecDigits a = toDecDigits b) : a = b := by
  rw [← fromDec_toDec a, ← fromDec_toDec b, h]

theorem digitChar_lt_inj : ∀ a < 10, ∀ b < 10, Nat.digitChar a = Nat.digitChar b → a = b := by
  decide

theorem digitChar_ne_dash : ∀ d < 10, Nat.digitChar d ≠ '-' := by
  decide

theorem map_digitChar_inj : ∀ l1 l2 : List Nat, (∀ d ∈ l1, d < 10) → (∀ d ∈ l2, d < 10) →
    l1.map Nat.digitChar = l2.map Nat.digitChar → l1 = l2 := by
  intro l1
  induction l1 with
  | nil =>
    intro l2 _ _ h
    cases l2 with
    | nil => rfl
    | cons b l2 => simp at h
  | cons a l ih =>
    intro l2 h1 h2 h
    cases l2 with
    | nil => simp at h
    | cons b l2 =>
      simp only [List.map_cons, List.cons.injEq] at h
      have ha : a < 10 := h1 a (by simp)
      have hb : b < 10 := h2 b (by simp)
      have hab : a = b := digitChar_lt_inj a ha b hb h.1
      rw [hab, ih l2 (fun d hd => h1 d (by simp [hd])) (fun d hd => h2 d (by simp [hd])) h.2]

theorem natDecChars_inj (a b : Nat) (h : natDecChars a = natDecChars b) : a = b := by
  unfold natDecChars at h
  exact toDecDigits_inj a b (map_digitChar_inj _ _ (toDecDigits_lt a) (toDecDigits_lt b) h)

theorem dash_not_mem_natDecChars (n : Nat) : '-' ∉ natDecChars n := by
  intro hm
  unfold natDecChars at hm
  rw [List.mem_map] at hm
  obtain ⟨d, hd, hc⟩ := hm
  exact digitChar_ne_dash d (toDecDigits_lt n d hd) hc

theorem natDecChars_ne_nil (n : Nat) : natDecChars n ≠ [] := by
  unfold natDecChars
  simp [toDecDigits_ne_nil n]

theorem natDecStr_ne_empty (n : Nat) : natDecStr n ≠ "" := by
  unfold natDecStr
  intro h
  have hd : natDecChars n = ("" : String).data := congrArg String.data h
  exact natDecChars_ne_nil n hd

theorem append_dash_inj : ∀ (a c b d : List Char), ('-' ∉ a) → ('-' ∉ c) →
    a ++ '-' :: b = c ++ '-' :: d → a = c ∧ b = d := by
  intro a
  induction a with
  | nil =>
    intro c b d _ hc h
    cases c with
    | nil =>
      simp only [List.nil_append, List.cons.injEq] at h
      exact ⟨rfl, h.2⟩
    | cons x c =>
      simp only [List.nil_append, List.cons_append, List.cons.injEq] at h
      exfalso
      apply hc
      rw [← h.1]
      exact List.mem_cons_self _ _
  | cons x a ih =>
    intro c b d ha hc h
    cases c with
    | nil =>
      simp only [List.cons_append, List.nil_append, List.cons.injEq] at h
      exfalso
      apply ha
      rw [h.1]
      exact List.mem_cons_self _ _
    | cons y c =>
      simp only [List.cons_append, List.cons.injEq] at h
      obtain ⟨h1, h2⟩ := h
      have ha' : '-' ∉ a := fun hm => ha (List.mem_cons_of_mem _ hm)
      have hc' : '-' ∉ c := fun hm => hc (List.mem_cons_of_mem _ hm)
      obtain ⟨e1, e2⟩ := ih c b d ha' hc' h2
      exact ⟨by rw [h1, e1], e2⟩

theorem renderKey_eq_mk (m : IMessageListItem) :
    renderKey m = String.mk ((((natDecChars m.turn_id ++ ['-']) ++ natDecChars m.uid) ++
      ['-']) ++ natDecChars (statusCode m.status)) := rfl

theorem statusCode_inj : ∀ s1 s2 : EMessageStatus, statusCode s1 = statusCode s2 → s1 = s2 := by
  intro s1 s2 h
  cases s1 <;> cases s2 <;> simp_all [statusCode]

/-- C7: when the completed-message list contains no in-progress message,
the rendered sequence is exactly `messageList`, or `messageList` with the
single in-progress message appended at its end; it never holds more than
one in-progress message. -/
theorem allMessages_at_most_one_streaming (msgs : List IMessageListItem)
    (cur : Option IMessageListItem)
    (h : ∀ m ∈ msgs, m.status ≠ EMessageStatus.IN_PROGRESS) :
    (allMessages msgs cur = msgs ∨
      ∃ m, cur = some m ∧ m.status = EMessageStatus.IN_PROGRESS ∧
        allMessages msgs cur = msgs ++ [m]) ∧
    ((allMessages msgs cur).filter
        (fun m => decide (m.status = EMessageStatus.IN_PROGRESS))).length ≤ 1 := by
  have hnil : msgs.filter (fun m => decide (m.status = EMessageStatus.IN_PROGRESS)) = [] := by
    rw [List.filter_eq_nil_iff]
    intro a ha
    simp [h a ha]
  cases cur with
  | none =>
    refine ⟨Or.inl rfl, ?_⟩
    unfold allMessages
    rw [hnil]
    simp
  | some m =>
    by_cases hss : shouldShowStreamingMessage (some m) = true
    · have hm : m.status = EMessageStatus.IN_PROGRESS := by
        unfold shouldShowStreamingMessage at hss
        simp only [Bool.and_eq_true, decide_eq_true_eq] at hss
        exact hss.1
      have hall : allMessages msgs (some m) = msgs ++ [m] := by
        simp [allMessages, hss]
      refine ⟨Or.inr ⟨m, rfl, hm, hall⟩, ?_⟩
      rw [hall, List.filter_append, hnil]
      simp only [List.nil_append]
      exact List.length_filter_le _ _
    · have hb : shouldShowStreamingMessage (some m) = false := by
        cases hx : shouldShowStreamingMessage (some m)
        · rfl
        · exact absurd hx hss
      have hall : allMessages msgs (some m) = msgs := by
        simp [allMessages, hb]
      refine ⟨Or.inl hall, ?_⟩
      rw [hall, hnil]
      simp

/-- C7 witness: one completed message plus one in-progress message render
as the list followed by the single streaming message. -/
theorem allMessages_at_most_one_streaming_witness :
    (∀ m ∈ [(⟨0, 1, "done", EMessageStatus.END⟩ : IMessageListItem)],
      m.status ≠ EMessageStatus.IN_PROGRESS) ∧
    ((allMessages [⟨0, 1, "done", EMessageStatus.END⟩]
        (some ⟨0, 2, "hi", EMessageStatus.IN_PROGRESS⟩) =
          [⟨0, 1, "done", EMessageStatus.END⟩] ∨
      ∃ m, (some (⟨0, 2, "hi", EMessageStatus.IN_PROGRESS⟩ : IMessageListItem)) = some m ∧
        m.status = EMessageStatus.IN_PROGRESS ∧
        allMessages [⟨0, 1, "done", EMessageStatus.END⟩]
          (some ⟨0, 2, "hi", EMessageStatus.IN_PROGRESS⟩) =
          [⟨0, 1, "done", EMessageStatus.END⟩] ++ [m]) ∧
    ((allMessages [⟨0, 1, "done", EMessageStatus.END⟩]
        (some ⟨0, 2, "hi", EMessageStatus.IN_PROGRESS⟩)).filter
        (fun m => decide (m.status = EMessageStatus.IN_PROGRESS))).length ≤ 1) :=
  ⟨by decide,
    allMessages_at_most_one_streaming [⟨0, 1, "done", EMessageStatus.END⟩]
      (some ⟨0, 2, "hi", EMessageStatus.IN_PROGRESS⟩) (by decide)⟩

/-- C8: the rendering key `${turn_id}-${uid}-${status}` of two messages
coincides exactly when the two messages agree on all three of `turn_id`,
`uid` and `status`; in particular it does not depend on the message text
or any sequence number. -/
theorem renderKey_eq_iff (m m' : IMessageListItem) :
    renderKey m = renderKey m' ↔
      (m.turn_id = m'.turn_id ∧ m.uid = m'.uid ∧ m.status = m'.status) := by
  constructor
  · intro h
    rw [renderKey_eq_mk m, renderKey_eq_mk m'] at h
    have hl : (((natDecChars m.turn_id ++ ['-']) ++ natDecChars m.uid) ++ ['-']) ++
        natDecChars (statusCode m.status) =
        (((natDecChars m'.turn_id ++ ['-']) ++ natDecChars m'.uid) ++ ['-']) ++
        natDecChars (statusCode m'.status) := congrArg String.data h
    simp only [List.append_assoc, List.singleton_append] at hl
    obtain ⟨h1, h2⟩ := append_dash_inj _ _ _ _
      (dash_not_mem_natDecChars _) (dash_not_mem_natDecChars _) hl
    obtain ⟨h3, h4⟩ := append_dash_inj _ _ _ _
      (dash_not_mem_natDecChars _) (dash_not_mem_natDecChars _) h2
    exact ⟨natDecChars_inj _ _ h1, natDecChars_inj _ _ h3,
      statusCode_inj _ _ (natDecChars_inj _ _ h4)⟩
  · rintro ⟨h1, h2, h3⟩
    unfold renderKey
    rw [h1, h2, h3]

/-- C9: the in-progress message is appended to the rendered transcript
exactly when it is present, its status is `IN_PROGRESS`, and its text is
non-empty after trimming whitespace. -/
theorem streaming_message_shown_iff (msgs : List IMessageListItem)
    (cur : Option IMessageListItem) :
    (∃ m, cur = some m ∧ allMessages msgs cur = msgs ++ [m]) ↔
      (∃ m, cur = some m ∧ m.status = EMessageStatus.IN_PROGRESS ∧
        0 < m.text.trim.length) := by
  cases cur with
  | none =>
    constructor
    · rintro ⟨m, hm, _⟩
      cases hm
    · rintro ⟨m, hm, _⟩
      cases hm
  | some m =>
    by_cases hss : shouldShowStreamingMessage (some m) = true
    · have hc : m.status = EMessageStatus.IN_PROGRESS ∧ 0 < m.text.trim.length := by
        unfold shouldShowStreamingMessage at hss
        simp only [Bool.and_eq_true, decide_eq_true_eq] at hss
        exact hss
      constructor
      · intro _
        exact ⟨m, rfl, hc.1, hc.2⟩
      · intro _
        refine ⟨m, rfl, ?_⟩
        simp [allMessages, hss]
    · have hb : shouldShowStreamingMessage (some m) = false := by
        cases hx : shouldShowStreamingMessage (some m)
        · rfl
        · exact absurd hx hss
      constructor
      · rintro ⟨m', hm', hall⟩
        cases hm'
        simp only [allMessages, hb, Bool.false_eq_true, if_false] at hall
        have hlen := congrArg List.length hall
        simp at hlen
      · rintro ⟨m', hm', h1, h2⟩
        cases hm'
        exfalso
        unfold shouldShowStreamingMessage at hb
        simp [h1, h2] at hb

/-- C10: a message is attributed to the AI exactly when its uid is 0, or
`agentUID` is defined and the decimal string of the uid equals it; with
`agentUID` undefined the right disjunct is vacuous, so only uid 0 counts
as the AI. -/
theorem isAIMessage_iff (agentUID : Option String) (m : IMessageListItem) :
    isAIMessage agentUID m = true ↔
      (m.uid = 0 ∨ ∃ s, agentUID = some s ∧ natDecStr m.uid = s) := by
  unfold isAIMessage
  cases agentUID with
  | none =>
    simp
  | some s =>
    rw [Bool.or_eq_true, Bool.and_eq_true]
    constructor
    · intro h
      cases h with
      | inl h => exact Or.inl (of_decide_eq_true h)
      | inr h => exact Or.inr ⟨s, rfl, eq_of_beq h.2⟩
    · intro h
      cases h with
      | inl h =>
        left
        exact decide_eq_true h
      | inr h =>
        obtain ⟨s', hs', he⟩ := h
        injection hs' with hss
        subst hss
        right
        have hne : s ≠ "" := he ▸ natDecStr_ne_empty m.uid
        constructor
        · simp [hne]
        · exact beq_iff_eq.mpr he

end ConvoUI
